import Mathlib

/-!
Verification of the rust-chess rules engine (src/chess.rs, src/move_calculator.rs,
src/piece.rs) against its specification.

The Rust code is shallowly embedded: the 8x8 board `[[Option<Piece>; 8]; 8]`
becomes a function `Fin 8 → Fin 8 → Option Piece` indexed as `board x y`
(x = file, y = rank counted from the top, exactly as in the source); in-place
mutation of the board / move tables becomes explicit state threading; Rust
panics (`panic!`, `expect`, `unwrap`, `assert_eq!`, out-of-range indexing)
become `none` of an `Option` result.  Loops with `break`/`continue` become
folds or fueled recursion (sliding rays and the castling scan move at least
one file per step, so fuel `8` is exact).
-/

set_option maxHeartbeats 1000000

namespace RChess

/-- Colors of pieces, from piece.rs. -/
inductive PieceColor where
  | White
  | Black
deriving DecidableEq, Repr

/-- Piece kinds, from piece.rs.  The pawn variant carries its
`en_passant` flag, as in the source enum `PieceType::Pawn { en_passant }`. -/
inductive PieceType where
  | Pawn (en_passant : Bool)
  | Rook
  | Bishop
  | Knight
  | King
  | Queen
deriving DecidableEq, Repr

/-- A piece: kind, color and `has_moved` flag, from piece.rs `struct Piece`. -/
structure Piece where
  piece_type : PieceType
  color : PieceColor
  has_moved : Bool
deriving DecidableEq, Repr

/-- Rust `PieceColor::get_enemy_color`. -/
def PieceColor.get_enemy_color : PieceColor → PieceColor
  | PieceColor.White => PieceColor.Black
  | PieceColor.Black => PieceColor.White

/-- Rust `matches!(t, PieceType::Pawn { .. })`. -/
def PieceType.isPawn : PieceType → Bool
  | PieceType.Pawn _ => true
  | _ => false

/-- Rust `Piece::promote`: panics (here `none`) on a non-pawn receiver or a King
target; otherwise replaces the piece kind. -/
def Piece.promote (p : Piece) (promote_to : PieceType) : Option Piece :=
  if p.piece_type.isPawn = false then none
  else if promote_to = PieceType.King then none
  else some { p with piece_type := promote_to }

/-- A board coordinate `(x, y)`: file then top-down rank, both in `Fin 8`. -/
abbrev Sq : Type := Fin 8 × Fin 8

/-- Rust `Board<T> = [[T; BOARD_HEIGHT]; BOARD_WIDTH]`, indexed `board x y`. -/
abbrev Board (α : Type) : Type := Fin 8 → Fin 8 → α

/-- Boards of optional pieces, `Board<Option<Piece>>`. -/
abbrev BoardP : Type := Board (Option Piece)

/-- Read a cell, `board[p.0][p.1]`. -/
def getCell {α : Type} (b : Board α) (p : Sq) : α := b p.1 p.2

/-- Write a cell, `board[p.0][p.1] = v`. -/
def setCell {α : Type} (b : Board α) (p : Sq) (v : α) : Board α :=
  fun i j => if i = p.1 ∧ j = p.2 then v else b i j

/-- Rust `Option::is_some_and`. -/
def is_some_and {α : Type} (o : Option α) (f : α → Bool) : Bool :=
  match o with
  | some a => f a
  | none => false

/-- Rust `Chess::is_position_in_bound` on signed coordinates. -/
def is_position_in_bound (p : Int × Int) : Prop :=
  0 ≤ p.1 ∧ p.1 < 8 ∧ 0 ≤ p.2 ∧ p.2 < 8

instance (p : Int × Int) : Decidable (is_position_in_bound p) := by
  unfold is_position_in_bound; infer_instance

/-- Convert a bounds-checked signed coordinate into a `Sq` (the `as usize` casts
performed in the source after `is_position_in_bound` passed). -/
def toSq (p : Int × Int) (h : is_position_in_bound p) : Sq :=
  (⟨p.1.toNat, by obtain ⟨h1, h2, _, _⟩ := h; omega⟩,
   ⟨p.2.toNat, by obtain ⟨_, _, h3, h4⟩ := h; omega⟩)

/-- Rust `Chess::is_empty_on`. -/
def is_empty_on (board : BoardP) (ind : Sq) : Bool :=
  (getCell board ind).isNone

/-- Rust `Chess::is_color_on` (false on an empty cell). -/
def is_color_on (board : BoardP) (ind : Sq) (color : PieceColor) : Bool :=
  match getCell board ind with
  | some piece => decide (piece.color = color)
  | none => false

/-- The move-table buffer with every destination unset. -/
def empty_moves : Board Bool := fun _ _ => false

/-- All squares in the iteration order of the source's nested loops
(`for x in 0..BOARD_WIDTH { for y in 0..BOARD_HEIGHT { ... } }`). -/
def allSquares : List Sq :=
  (List.finRange 8).flatMap fun x => (List.finRange 8).map fun y => (x, y)

/-- Rust `usize::abs_diff`. -/
def abs_diff (a b : Nat) : Nat := if b ≤ a then a - b else b - a

/-! ### move_calculator.rs -/

/-- The `y_direction` local of `get_pawn_moves`: white pawns move toward
rank 0, black pawns toward rank 7. -/
def pawn_y_direction (c : PieceColor) : Int :=
  if c = PieceColor.White then -1 else 1

/-- The forward-move loop of `get_pawn_moves`: walk `move_y = 1..=reach`
steps straight ahead, stopping at the board edge or the first occupied
square (which is not a capture). -/
def pawn_forward (board : BoardP) (x : Fin 8) (y y_direction : Int) :
    List Int → Board Bool → Board Bool
  | [], moves => moves
  | move_y :: rest, moves =>
    let n : Int × Int := ((x.val : Int), y + move_y * y_direction)
    if h : is_position_in_bound n then
      let ind := toSq n h
      if is_empty_on board ind then
        pawn_forward board x y y_direction rest (setCell moves ind true)
      else moves
    else moves

/-- One iteration of the diagonal-attack loop of `get_pawn_moves`
(`for move_x in [-1, 1]`): the destination is marked when it holds an enemy
piece, or when the x-adjacent cell on the pawn's own rank holds a pawn whose
`en_passant` flag is set (the en passant capture). -/
def pawn_attack_step (board : BoardP) (enemy_color : PieceColor)
    (x y : Fin 8) (y_direction : Int) (moves : Board Bool) (move_x : Int) :
    Board Bool :=
  let n : Int × Int := ((x.val : Int) + move_x, (y.val : Int) + y_direction)
  if h : is_position_in_bound n then
    let ind := toSq n h
    let is_directly_attackable := is_color_on board ind enemy_color
    let can_en_passant :=
      is_some_and (board ind.1 y)
        (fun piece => decide (piece.piece_type = PieceType.Pawn true))
    if is_directly_attackable || can_en_passant then setCell moves ind true
    else moves
  else moves

/-- Rust `get_pawn_moves`. -/
def get_pawn_moves (piece : Piece) (board : BoardP) (p : Sq)
    (moves : Board Bool) : Board Bool :=
  let y_direction := pawn_y_direction piece.color
  let reach : Nat := if piece.has_moved then 1 else 2
  let moves := pawn_forward board p.1 (p.2.val : Int) y_direction
    (List.range' 1 reach) moves
  let enemy_color := piece.color.get_enemy_color
  [(-1 : Int), 1].foldl (pawn_attack_step board enemy_color p.1 p.2 y_direction)
    moves

/-- The shared body of the fixed-offset loops of `get_knight_moves` and of
the adjacent-square part of `get_king_moves`: mark the offset destination if
it is in bounds and empty or enemy-occupied. -/
def offset_move_step (board : BoardP) (enemy_color : PieceColor) (p : Sq)
    (moves : Board Bool) (d : Int × Int) : Board Bool :=
  let n : Int × Int := ((p.1.val : Int) + d.1, (p.2.val : Int) + d.2)
  if h : is_position_in_bound n then
    let ind := toSq n h
    if is_empty_on board ind || is_color_on board ind enemy_color then
      setCell moves ind true
    else moves
  else moves

/-- The `DIRS` table of `get_knight_moves`. -/
def KNIGHT_DIRS : List (Int × Int) :=
  [(-2, -1), (-2, 1), (2, -1), (2, 1), (-1, -2), (-1, 2), (1, -2), (1, 2)]

/-- Rust `get_knight_moves`. -/
def get_knight_moves (piece : Piece) (board : BoardP) (p : Sq)
    (moves : Board Bool) : Board Bool :=
  KNIGHT_DIRS.foldl (offset_move_step board piece.color.get_enemy_color p) moves

/-- The ray walk of `get_moves_in_direction`: advance one step, stop at the
board edge, mark empty or enemy squares, and stop after the first non-empty
square.  A ray visits at most 7 further squares, so fuel 8 is exact. -/
def ray_loop (board : BoardP) (dir : Int × Int) (enemy_color : PieceColor) :
    Nat → Int × Int → Board Bool → Board Bool
  | 0, _, moves => moves
  | fuel + 1, n0, moves =>
    let n : Int × Int := (n0.1 + dir.1, n0.2 + dir.2)
    if h : is_position_in_bound n then
      let ind := toSq n h
      let is_empty := is_empty_on board ind
      let is_enemy := is_color_on board ind enemy_color
      let moves := if is_empty || is_enemy then setCell moves ind true else moves
      if is_empty then ray_loop board dir enemy_color fuel n moves else moves
    else moves

/-- Rust `get_moves_in_direction`. -/
def get_moves_in_direction (board : BoardP) (p : Sq) (dir : Int × Int)
    (enemy_color : PieceColor) (moves : Board Bool) : Board Bool :=
  ray_loop board dir enemy_color 8 ((p.1.val : Int), (p.2.val : Int)) moves

/-- The `DIRS` table of `get_orthogonal_moves`. -/
def ORTHO_DIRS : List (Int × Int) := [(1, 0), (-1, 0), (0, 1), (0, -1)]

/-- The direction pairs of `get_diagonal_moves`, `x_dir` outer. -/
def DIAG_DIRS : List (Int × Int) := [(-1, -1), (-1, 1), (1, -1), (1, 1)]

/-- Rust `get_orthogonal_moves`. -/
def get_orthogonal_moves (board : BoardP) (p : Sq) (enemy_color : PieceColor)
    (moves : Board Bool) : Board Bool :=
  ORTHO_DIRS.foldl (fun moves dir =>
    get_moves_in_direction board p dir enemy_color moves) moves

/-- Rust `get_diagonal_moves`. -/
def get_diagonal_moves (board : BoardP) (p : Sq) (enemy_color : PieceColor)
    (moves : Board Bool) : Board Bool :=
  DIAG_DIRS.foldl (fun moves dir =>
    get_moves_in_direction board p dir enemy_color moves) moves

/-- Rust `get_bishop_moves`. -/
def get_bishop_moves (piece : Piece) (board : BoardP) (p : Sq)
    (moves : Board Bool) : Board Bool :=
  get_diagonal_moves board p piece.color.get_enemy_color moves

/-- Rust `get_rook_moves`. -/
def get_rook_moves (piece : Piece) (board : BoardP) (p : Sq)
    (moves : Board Bool) : Board Bool :=
  get_orthogonal_moves board p piece.color.get_enemy_color moves

/-- Rust `get_queen_moves`. -/
def get_queen_moves (piece : Piece) (board : BoardP) (p : Sq)
    (moves : Board Bool) : Board Bool :=
  get_orthogonal_moves board p piece.color.get_enemy_color
    (get_diagonal_moves board p piece.color.get_enemy_color moves)

/-- The `is_castlable_rook` closure of `can_castle`: the cell holds an
unmoved rook (the source checks no color). -/
def is_castlable_rook (cell : Option Piece) : Bool :=
  is_some_and cell
    (fun piece => decide (piece.piece_type = PieceType.Rook) && !piece.has_moved)

/-- The scan loop of `can_castle`: step `nx` by `x_dir`; on reaching file 0
or 7 the loop breaks and the source then tests `is_castlable_rook` on that
corner; a non-empty intermediate square returns false.  The source performs
no bounds check (the king is asserted as standing on file 4, from which the scan
always reaches a corner within 8 steps); an out-of-range step, which Rust
would turn into an indexing panic, yields `false` here and is unreachable
from file 4. -/
def can_castle_loop (board : BoardP) (y : Fin 8) (x_dir : Int) :
    Nat → Int → Bool
  | 0, _ => false
  | fuel + 1, nx0 =>
    let nx := nx0 + x_dir
    if h : is_position_in_bound (nx, (y.val : Int)) then
      let ind := toSq (nx, (y.val : Int)) h
      if ind.1 = (0 : Fin 8) ∨ ind.1 = (7 : Fin 8) then
        is_castlable_rook (getCell board ind)
      else if is_empty_on board ind = false then false
      else can_castle_loop board y x_dir fuel nx
    else false

/-- Rust `can_castle`. -/
def can_castle (board : BoardP) (p : Sq) (x_dir : Int) : Bool :=
  can_castle_loop board p.2 x_dir 8 (p.1.val : Int)

/-- The adjacent-offset pairs of `get_king_moves` (`move_x` outer,
`move_y` inner, skipping `(0, 0)`). -/
def KING_DIRS : List (Int × Int) :=
  [(-1, -1), (-1, 0), (-1, 1), (0, -1), (0, 1), (1, -1), (1, 0), (1, 1)]

/-- Rust `get_king_moves`: the eight adjacent squares, then, for an unmoved king,
the two castling candidates.  The source asserts (`assert_eq!`, a panic —
here `none`) that an unmoved king stands at `(4, rank)` where `rank` is 7
for White and 0 for Black; under that assertion `x + 2 = 6` and
`x - 2 = 2`. -/
def get_king_moves (piece : Piece) (board : BoardP) (p : Sq)
    (moves : Board Bool) : Option (Board Bool) :=
  let enemy_color := piece.color.get_enemy_color
  let moves := KING_DIRS.foldl (offset_move_step board enemy_color p) moves
  if piece.has_moved then some moves
  else
    let rank : Fin 8 := if piece.color = PieceColor.White then 7 else 0
    if p = ((4 : Fin 8), rank) then
      let moves := setCell moves ((6 : Fin 8), p.2) (can_castle board p 1)
      some (setCell moves ((2 : Fin 8), p.2) (can_castle board p (-1)))
    else none

/-- Rust `get_moves`: dispatch on the piece kind; an empty source square leaves
the buffer unchanged (`let Some(piece) = ... else { return }`). -/
def get_moves (board : BoardP) (ind : Sq) (moves : Board Bool) :
    Option (Board Bool) :=
  match getCell board ind with
  | none => some moves
  | some piece =>
    match piece.piece_type with
    | PieceType.Pawn _ => some (get_pawn_moves piece board ind moves)
    | PieceType.Knight => some (get_knight_moves piece board ind moves)
    | PieceType.Bishop => some (get_bishop_moves piece board ind moves)
    | PieceType.Rook => some (get_rook_moves piece board ind moves)
    | PieceType.Queen => some (get_queen_moves piece board ind moves)
    | PieceType.King => get_king_moves piece board ind moves

/-- The name under which chess.rs calls `get_moves`
(`move_calculator::get_pseudo_legal_moves`). -/
def get_pseudo_legal_moves (board : BoardP) (ind : Sq) (moves : Board Bool) :
    Option (Board Bool) :=
  get_moves board ind moves

/-- An `Option`-valued left fold: the monadic fold the stateful loops of
chess.rs become, where `none` is a propagated panic. -/
def optFold {σ α : Type} (f : σ → α → Option σ) : σ → List α → Option σ
  | s, [] => some s
  | s, a :: l =>
    match f s a with
    | none => none
    | some s2 => optFold f s2 l

/-- Rust `get_all_attacks`: union the pseudo-legal destinations of every piece of
`color` into one shared buffer, in board scan order. -/
def get_all_attacks (board : BoardP) (color : PieceColor) :
    Option (Board Bool) :=
  optFold (fun attacks sq =>
    if is_some_and (getCell board sq) (fun piece => decide (piece.color = color))
    then get_moves board sq attacks
    else some attacks) empty_moves allSquares

/-! ### chess.rs -/

/-- The turn states of `enum TurnState`.  The drawing-only `position: Vec2`
payload of the `Promoter` is omitted; its game-logic payload (the promotion
cell and color) is kept. -/
inductive TurnState where
  | Normal
  | Promotion (cell : Sq) (color : PieceColor)
  | Check
  | Checkmate
  | Stalemate
deriving DecidableEq, Repr

/-- The `PROMOTION_PIECES` table of the `Promoter`. -/
def PROMOTION_PIECES : List PieceType :=
  [PieceType.Queen, PieceType.Knight, PieceType.Rook, PieceType.Bishop]

/-- Rust `Promoter::choose_promotion`.  The mouse-position-cell translation
(`((m_pos - self.position) / CELL_SIZE).floor()` followed by `as i32`) is
floating-point UI geometry; it is abstracted as the already-floored integer
cell `(x, y)` together with the `is_mouse_pressed` flag.  Inside the bound
`0 <= x < 4 && y == 0` the source indexes `PROMOTION_PIECES[x as usize]`,
which never panics there, so total `getD` indexing is faithful. -/
def choose_promotion (is_mouse_pressed : Bool) (cell : Int × Int) :
    Option PieceType :=
  if is_mouse_pressed = false then none
  else
    if 0 ≤ cell.1 ∧ cell.1 < 4 ∧ cell.2 = 0 then
      some (PROMOTION_PIECES.getD cell.1.toNat PieceType.Queen)
    else none

/-- Rust `Chess::move_en_passant`: only pawns are affected.  On a diagonal move it
redirects the attacked cell at `(tgt.x, from.y)` when that cell holds an
enemy pawn with its `en_passant` flag set; on a two-cell vertical move it
sets the moving pawn's own flag.  Returns the (possibly updated) moving
piece and the `attacking_position`. -/
def move_en_passant (board : BoardP) (frm tgt : Sq) (src_piece : Piece) :
    Piece × Sq :=
  match src_piece.piece_type with
  | PieceType.Pawn _ =>
    if frm.1 ≠ tgt.1 then
      let en_passant_target := getCell board (tgt.1, frm.2)
      if is_some_and en_passant_target (fun enemy =>
          decide (¬ enemy.color = src_piece.color) &&
          decide (enemy.piece_type = PieceType.Pawn true)) then
        (src_piece, (tgt.1, frm.2))
      else (src_piece, tgt)
    else if abs_diff frm.2.val tgt.2.val = 2 then
      ({ src_piece with piece_type := PieceType.Pawn true }, tgt)
    else (src_piece, tgt)
  | _ => (src_piece, tgt)

/-- Rust `Chess::move_castling`: when a king moves two files, lift the rook out
of the corner on the destination side (`expect`, a panic — here `none` — if
that corner is empty), mark it moved and set it down beside the king.  The
`tgt.0 + 1` index can only leave the board for a malformed two-file king move
(`tgt.0 = 7` with `tgt.0 ≤ from.0`), where Rust would panic — `none` here. -/
def move_castling (board : BoardP) (frm tgt : Sq) (src_piece : Piece) :
    Option BoardP :=
  let is_castling := decide (src_piece.piece_type = PieceType.King) &&
    decide (abs_diff frm.1.val tgt.1.val = 2)
  if is_castling = false then some board
  else
    let rook_x : Fin 8 := if frm.1 < tgt.1 then 7 else 0
    let rook_new_x_val : Nat := if frm.1 < tgt.1 then tgt.1.val - 1 else tgt.1.val + 1
    match getCell board (rook_x, frm.2) with
    | none => none
    | some rook =>
      if h : rook_new_x_val < 8 then
        let board := setCell board (rook_x, frm.2) none
        let rook := { rook with has_moved := true }
        some (setCell board ((⟨rook_new_x_val, h⟩ : Fin 8), frm.2) (some rook))
      else none

/-- Rust `Chess::move_piece`: panic (`none`) on an empty source square; mark the
piece moved, resolve the special moves, then clear the source and attacked
cells and place the piece on the destination. -/
def move_piece (board : BoardP) (frm tgt : Sq) : Option BoardP :=
  match getCell board frm with
  | none => none
  | some src0 =>
    let src_piece := { src0 with has_moved := true }
    let (src_piece, attacking_position) := move_en_passant board frm tgt src_piece
    (move_castling board frm tgt src_piece).map (fun board =>
      setCell (setCell (setCell board frm none) attacking_position none)
        tgt (some src_piece))

/-- The king scan of `Chess::is_in_check`: the inner `break` stops at the
first matching rank of a file, while later files overwrite the result. -/
def find_king (board : BoardP) (color : PieceColor) : Option Sq :=
  (List.finRange 8).foldl (fun kings_position x =>
    match (List.finRange 8).find? (fun y =>
        is_some_and (board x y) (fun piece =>
          decide (piece.color = color) &&
          decide (piece.piece_type = PieceType.King))) with
    | some y => some (x, y)
    | none => kings_position) none

/-- Rust `Chess::is_in_check`: `expect` (a panic — `none`) when no king of the
color is on the board, then membership of the king's square in
`get_all_attacks` of the enemy color. -/
def is_in_check (color : PieceColor) (board : BoardP) : Option Bool :=
  match find_king board color with
  | none => none
  | some kings_position =>
    match get_all_attacks board color.get_enemy_color with
    | none => none
    | some enemy_attacks => some (getCell enemy_attacks kings_position)

/-- One destination of the candidate loop of
`Chess::eliminate_illegal_moves`: skip unset destinations; otherwise
temporarily execute the move, discard the candidate if the mover is then in
check, and restore the saved board. -/
def elim_step (color : PieceColor) (frm : Sq) (board_saved : BoardP)
    (st : Board Bool × BoardP) (tgt : Sq) : Option (Board Bool × BoardP) :=
  if getCell st.1 tgt = false then some st
  else
    match move_piece st.2 frm tgt with
    | none => none
    | some board2 =>
      match is_in_check color board2 with
      | none => none
      | some chk =>
        some (if chk then setCell st.1 tgt false else st.1, board_saved)

/-- One step of the king's replayed traversal in
`Chess::eliminate_castling_illegal_moves` (`for x in 0..2`): move the king
`x_dir * x` files from its start on the restored board, clear the castling
flag if it is then in check, and restore the saved board.  The source casts
`from.0 as i32 + x_dir * x` into `usize` unchecked; under the in-bound
castling destination the cast is safe, and the unreachable out-of-range
case, an indexing panic in Rust, is `none`. -/
def castle_elim_inner (color : PieceColor) (frm dst : Sq) (x_dir : Int)
    (board_saved : BoardP) (st : Board Bool × BoardP) (x : Int) :
    Option (Board Bool × BoardP) :=
  if h : is_position_in_bound ((frm.1.val : Int) + x_dir * x, (frm.2.val : Int)) then
    let tgt := toSq ((frm.1.val : Int) + x_dir * x, (frm.2.val : Int)) h
    match move_piece st.2 frm tgt with
    | none => none
    | some board2 =>
      match is_in_check color board2 with
      | none => none
      | some chk =>
        some (if chk then setCell st.1 dst false else st.1, board_saved)
  else none

/-- One direction (`for x_dir in [-1, 1]`) of
`Chess::eliminate_castling_illegal_moves`: skip when the two-file castling
destination is out of bounds (`continue`) or its flag is already clear;
otherwise run the king's replayed traversal. -/
def castle_elim_dir (color : PieceColor) (frm : Sq) (board_saved : BoardP)
    (st : Board Bool × BoardP) (x_dir : Int) : Option (Board Bool × BoardP) :=
  let castling_dst : Int × Int :=
    ((frm.1.val : Int) + x_dir * 2, (frm.2.val : Int))
  if h : is_position_in_bound castling_dst then
    let dst := toSq castling_dst h
    if getCell st.1 dst = false then some st
    else optFold (castle_elim_inner color frm dst x_dir board_saved) st
      [(0 : Int), 1]
  else some st

/-- Rust `Chess::eliminate_castling_illegal_moves`: `unwrap` (panic — `none`) on
an empty source cell; nothing happens for non-kings; otherwise filter both
castling directions with `castle_elim_dir`. -/
def eliminate_castling_illegal_moves (color : PieceColor) (board : BoardP)
    (frm : Sq) (moves : Board Bool) (board_saved : BoardP) :
    Option (Board Bool × BoardP) :=
  match getCell board frm with
  | none => none
  | some piece =>
    if piece.piece_type ≠ PieceType.King then some (moves, board)
    else
      optFold (castle_elim_dir color frm board_saved)
        (moves, board) [(-1 : Int), 1]

/-- Rust `Chess::eliminate_illegal_moves`: snapshot the board, filter every
marked destination by simulate-and-restore, then apply the castling-specific
filter. -/
def eliminate_illegal_moves (color : PieceColor) (board : BoardP)
    (moves : Board Bool) (frm : Sq) : Option (Board Bool × BoardP) :=
  let board_saved := board
  match optFold (elim_step color frm board_saved) (moves, board) allSquares with
  | none => none
  | some (moves1, board1) =>
    eliminate_castling_illegal_moves color board1 frm moves1 board_saved

/-- The legal-move table `legal_moves: Board<Board<bool>>` with every entry
reset, the state set by `compute_each_legal_moves` before its scan. -/
def empty_table : Board (Board Bool) := fun _ _ => empty_moves

/-- Rust `Chess::compute_each_legal_moves`: reset the table, then for every piece
of the turn's color write its pseudo-legal moves into its table entry and
filter them with `eliminate_illegal_moves`, threading the board through the
simulate-and-restore steps. -/
def compute_each_legal_moves (color : PieceColor) (board : BoardP) :
    Option (Board (Board Bool) × BoardP) :=
  optFold (fun (st : Board (Board Bool) × BoardP) sq =>
    if is_color_on st.2 sq color = false then some st
    else
      match get_pseudo_legal_moves st.2 sq (getCell st.1 sq) with
      | none => none
      | some pseudo =>
        match eliminate_illegal_moves color st.2 pseudo sq with
        | none => none
        | some (moves2, board2) => some (setCell st.1 sq moves2, board2))
    (empty_table, board) allSquares

/-- Rust `legal_moves[x][y].iter().any(|col| col.contains(&true))`:
whether any destination of a move buffer is set. -/
def any_true (m : Board Bool) : Bool :=
  (List.finRange 8).any fun x => (List.finRange 8).any fun y => m x y

/-- Rust `Chess::compute_is_movable`: a cell is movable iff its legal-move entry
contains a set destination. -/
def compute_is_movable (legal_moves : Board (Board Bool)) : Board Bool :=
  fun x y => any_true (legal_moves x y)

/-- Rust `Chess::compute_moves`: compute the legal-move table and the movable
mask; if no piece is movable the state becomes `Checkmate` when it already
was `Check` and `Stalemate` otherwise. -/
def compute_moves (color : PieceColor) (board : BoardP) (state : TurnState) :
    Option (Board (Board Bool) × Board Bool × TurnState) :=
  match compute_each_legal_moves color board with
  | none => none
  | some (legal_moves, _board2) =>
    let is_movable := compute_is_movable legal_moves
    let state2 :=
      if any_true is_movable = false then
        if state = TurnState.Check then TurnState.Checkmate
        else TurnState.Stalemate
      else state
    some (legal_moves, is_movable, state2)

/-- Rust `Chess::change_turn`: flip the active color, set the state from
`is_in_check` of the new color, and recompute the moves. -/
def change_turn (color : PieceColor) (board : BoardP) :
    Option (PieceColor × (Board (Board Bool) × Board Bool × TurnState)) :=
  let color2 := color.get_enemy_color
  match is_in_check color2 board with
  | none => none
  | some chk =>
    let state := if chk then TurnState.Check else TurnState.Normal
    (compute_moves color2 board state).map (fun r => (color2, r))

/-- The en-passant update of `Chess::post_move_update` on one piece: the
flag of a pawn belonging to the enemy of the turn's color (the side about
to move next) is cleared; every other piece is untouched. -/
def clear_enemy_pawn_flag (turn_color : PieceColor) (piece0 : Piece) : Piece :=
  match piece0.piece_type with
  | PieceType.Pawn _ =>
    if piece0.color = turn_color.get_enemy_color then
      { piece0 with piece_type := PieceType.Pawn false }
    else piece0
  | _ => piece0

/-- One cell of the scan of `Chess::post_move_update`: clear the
`en_passant` flag of enemy pawns, and enter the promotion sub-state
(delaying the turn change) for a pawn standing on its promotion rank. -/
def post_move_update_step (turn_color : PieceColor)
    (st : BoardP × TurnState × Bool) (sq : Sq) : BoardP × TurnState × Bool :=
  match getCell st.1 sq with
  | none => st
  | some piece0 =>
    let piece := clear_enemy_pawn_flag turn_color piece0
    let board := setCell st.1 sq (some piece)
    let promotionable_row : Fin 8 :=
      if piece.color = PieceColor.White then 0 else 7
    if piece.piece_type.isPawn = true ∧ sq.2 = promotionable_row then
      (board, TurnState.Promotion sq piece.color, true)
    else (board, st.2.1, st.2.2)

/-- Rust `Chess::post_move_update` over the whole board; the returned `Bool` is
`delay_turn` (the source then sets `change_turn` as its negation). -/
def post_move_update (turn_color : PieceColor) (board : BoardP)
    (state : TurnState) : BoardP × TurnState × Bool :=
  allSquares.foldl (post_move_update_step turn_color) (board, state, false)

/-! ### Concrete boards used as witnesses and counterexamples -/

/-- A sparse position: both kings, both already moved. -/
def b0 : BoardP := fun x y =>
  if x = 4 ∧ y = 7 then some (Piece.mk PieceType.King PieceColor.White true)
  else if x = 4 ∧ y = 0 then some (Piece.mk PieceType.King PieceColor.Black true)
  else none

/-- White king and rook on their home squares, unmoved; the black king
moved away into a corner. -/
def bC3 : BoardP := fun x y =>
  if x = 4 ∧ y = 7 then some (Piece.mk PieceType.King PieceColor.White false)
  else if x = 7 ∧ y = 7 then some (Piece.mk PieceType.Rook PieceColor.White false)
  else if x = 0 ∧ y = 0 then some (Piece.mk PieceType.King PieceColor.Black true)
  else none

/-- An unmoved white king on its home square with an unmoved BLACK rook on
the white kingside corner. -/
def bC4 : BoardP := fun x y =>
  if x = 4 ∧ y = 7 then some (Piece.mk PieceType.King PieceColor.White false)
  else if x = 7 ∧ y = 7 then some (Piece.mk PieceType.Rook PieceColor.Black false)
  else none

/-- Same as `bC4` but with the corner rook white: a genuine castling
position. -/
def bC4W : BoardP := fun x y =>
  if x = 4 ∧ y = 7 then some (Piece.mk PieceType.King PieceColor.White false)
  else if x = 7 ∧ y = 7 then some (Piece.mk PieceType.Rook PieceColor.White false)
  else none

/-- Two white pawns side by side, the right one with its `en_passant` flag
set — same color as the mover. -/
def bC5 : BoardP := fun x y =>
  if x = 0 ∧ y = 3 then some (Piece.mk (PieceType.Pawn false) PieceColor.White true)
  else if x = 1 ∧ y = 3 then some (Piece.mk (PieceType.Pawn true) PieceColor.White true)
  else none

/-- The white king on `(2, 0)`, a black rook on `(2, 4)` attacking it up the
file, and the unmoved black king on its home square `(4, 0)`. -/
def bC6 : BoardP := fun x y =>
  if x = 2 ∧ y = 0 then some (Piece.mk PieceType.King PieceColor.White true)
  else if x = 2 ∧ y = 4 then some (Piece.mk PieceType.Rook PieceColor.Black true)
  else if x = 4 ∧ y = 0 then some (Piece.mk PieceType.King PieceColor.Black false)
  else none

/-- A black pawn and a white pawn, both with their `en_passant` flag set. -/
def bC8 : BoardP := fun x y =>
  if x = 3 ∧ y = 4 then some (Piece.mk (PieceType.Pawn true) PieceColor.Black true)
  else if x = 4 ∧ y = 4 then some (Piece.mk (PieceType.Pawn true) PieceColor.White true)
  else none

/-! ### Basic lemmas about the board representation and `optFold` -/

lemma getCell_setCell_self {α : Type} (b : Board α) (p : Sq) (v : α) :
    getCell (setCell b p v) p = v := by
  simp [getCell, setCell]

lemma getCell_setCell_ne {α : Type} (b : Board α) (p q : Sq) (v : α)
    (h : q ≠ p) : getCell (setCell b p v) q = getCell b q := by
  simp only [getCell, setCell]
  rw [if_neg]
  rintro ⟨h1, h2⟩
  exact h (Prod.ext h1 h2)

lemma getCell_setCell {α : Type} (b : Board α) (p q : Sq) (v : α) :
    getCell (setCell b p v) q = if q = p then v else getCell b q := by
  by_cases h : q = p
  · subst h; rw [if_pos rfl, getCell_setCell_self]
  · rw [if_neg h, getCell_setCell_ne _ _ _ _ h]

lemma mem_allSquares (sq : Sq) : sq ∈ allSquares := by
  obtain ⟨x, y⟩ := sq
  simp [allSquares, List.mem_flatMap, List.mem_map, List.mem_finRange]

lemma toSq_eq_of_val (p : Int × Int) (h : is_position_in_bound p) (q : Sq)
    (h1 : p.1 = (q.1.val : Int)) (h2 : p.2 = (q.2.val : Int)) : toSq p h = q := by
  have e1 : p.1.toNat = q.1.val := by omega
  have e2 : p.2.toNat = q.2.val := by omega
  exact Prod.ext (Fin.ext e1) (Fin.ext e2)

lemma in_bound_of_fin (k : Int) (y : Fin 8) (h1 : 0 ≤ k) (h2 : k < 8) :
    is_position_in_bound (k, (y.val : Int)) := by
  have := y.isLt
  exact ⟨h1, h2, by omega, by omega⟩

lemma optFold_cons {σ α : Type} (f : σ → α → Option σ) (s : σ) (a : α)
    (l : List α) :
    optFold f s (a :: l) = (f s a).bind (fun s2 => optFold f s2 l) := by
  cases h : f s a <;> simp [optFold, h]

lemma optFold_pres {σ α : Type} (P : σ → Prop) (f : σ → α → Option σ)
    (hf : ∀ s a s', f s a = some s' → P s → P s') :
    ∀ (l : List α) (s s' : σ), P s → optFold f s l = some s' → P s' := by
  intro l
  induction l with
  | nil =>
    intro s s' hP h
    simp only [optFold] at h
    cases h
    exact hP
  | cons a l ih =>
    intro s s' hP h
    rw [optFold_cons] at h
    cases hfa : f s a with
    | none => rw [hfa] at h; simp at h
    | some s2 =>
      rw [hfa] at h
      simp only [Option.some_bind] at h
      exact ih s2 s' (hf s a s2 hfa hP) h

/-! ### Lemmas about the legality filter -/

lemma elim_step_clears (color : PieceColor) (frm : Sq) (bs : BoardP)
    (st st' : Board Bool × BoardP) (tgt : Sq)
    (h : elim_step color frm bs st tgt = some st') (q : Sq)
    (hq : getCell st.1 q = false) : getCell st'.1 q = false := by
  unfold elim_step at h
  split at h
  · cases h; exact hq
  · split at h
    · cases h
    · split at h
      · cases h
      · cases h
        rename_i chk _
        cases chk
        · exact hq
        · show getCell (setCell st.1 tgt false) q = false
          rw [getCell_setCell]
          by_cases hqt : q = tgt
          · rw [if_pos hqt]
          · rw [if_neg hqt]; exact hq

lemma elim_step_board (color : PieceColor) (frm : Sq) (bs : BoardP)
    (st st' : Board Bool × BoardP) (tgt : Sq)
    (h : elim_step color frm bs st tgt = some st') (hb : st.2 = bs) :
    st'.2 = bs := by
  unfold elim_step at h
  split at h
  · cases h; exact hb
  · split at h
    · cases h
    · split at h
      · cases h
      · cases h; rfl

lemma elim_fold_mono (color : PieceColor) (frm : Sq) (bs : BoardP)
    (l : List Sq) (st st' : Board Bool × BoardP)
    (h : optFold (elim_step color frm bs) st l = some st') (q : Sq)
    (htrue : getCell st'.1 q = true) : getCell st.1 q = true := by
  by_contra hne
  have hfalse : getCell st.1 q = false := by
    cases hh : getCell st.1 q
    · rfl
    · exact absurd hh hne
  have := optFold_pres (fun s => getCell s.1 q = false)
    (elim_step color frm bs)
    (fun s a s' hs hP => elim_step_clears color frm bs s s' a hs q hP)
    l st st' hfalse h
  rw [this] at htrue
  cases htrue

lemma elim_fold_board (color : PieceColor) (frm : Sq) (bs : BoardP)
    (l : List Sq) (st st' : Board Bool × BoardP)
    (h : optFold (elim_step color frm bs) st l = some st') (hb : st.2 = bs) :
    st'.2 = bs :=
  optFold_pres (fun s => s.2 = bs) (elim_step color frm bs)
    (fun s a s' hs hP => elim_step_board color frm bs s s' a hs hP)
    l st st' hb h

lemma elim_fold_sound (color : PieceColor) (frm : Sq) (bs : BoardP) :
    ∀ (l : List Sq) (st st' : Board Bool × BoardP),
    st.2 = bs →
    optFold (elim_step color frm bs) st l = some st' →
    ∀ tgt ∈ l, getCell st'.1 tgt = true →
    Option.bind (move_piece bs frm tgt) (is_in_check color) = some false := by
  intro l
  induction l with
  | nil => intro st st' hb h tgt htgt; cases htgt
  | cons a l ih =>
    intro st st' hb h tgt htgt htrue
    rw [optFold_cons] at h
    cases hfa : elim_step color frm bs st a with
    | none => rw [hfa] at h; cases h
    | some st1 =>
      rw [hfa] at h
      simp only [Option.some_bind] at h
      have hb1 : st1.2 = bs := elim_step_board color frm bs st st1 a hfa hb
      rcases List.mem_cons.mp htgt with heq | hmem
      · subst heq
        have htrue1 : getCell st1.1 tgt = true :=
          elim_fold_mono color frm bs l st1 st' h tgt htrue
        unfold elim_step at hfa
        split at hfa
        · rename_i h0
          cases hfa
          rw [h0] at htrue1
          cases htrue1
        · split at hfa
          · cases hfa
          · rename_i board2 hm
            split at hfa
            · cases hfa
            · rename_i chk hc
              cases hfa
              cases chk
              · rw [hb] at hm
                rw [hm]
                simpa using hc
              · have h2 : getCell (setCell st.1 tgt false) tgt = true := htrue1
                rw [getCell_setCell_self] at h2
                cases h2
      · exact ih st1 st' hb1 h tgt hmem htrue

lemma optFold_moves_mono {α : Type}
    (f : (Board Bool × BoardP) → α → Option (Board Bool × BoardP))
    (hf : ∀ st a st' q, f st a = some st' → getCell st.1 q = false →
      getCell st'.1 q = false)
    (l : List α) (st st' : Board Bool × BoardP)
    (h : optFold f st l = some st') (q : Sq)
    (htrue : getCell st'.1 q = true) : getCell st.1 q = true := by
  by_contra hne
  have hfalse : getCell st.1 q = false := by
    cases hh : getCell st.1 q
    · rfl
    · exact absurd hh hne
  have := optFold_pres (fun s => getCell s.1 q = false) f
    (fun s a s' hs hP => hf s a s' q hs hP) l st st' hfalse h
  rw [this] at htrue
  cases htrue

lemma castle_inner_clears (color : PieceColor) (frm dst : Sq) (x_dir : Int)
    (bs : BoardP) (st st' : Board Bool × BoardP) (x : Int)
    (h : castle_elim_inner color frm dst x_dir bs st x = some st') (q : Sq)
    (hq : getCell st.1 q = false) : getCell st'.1 q = false := by
  unfold castle_elim_inner at h
  dsimp only at h
  split at h
  · split at h
    · cases h
    · split at h
      · cases h
      · cases h
        rename_i chk _
        cases chk
        · exact hq
        · show getCell (setCell st.1 dst false) q = false
          rw [getCell_setCell]
          by_cases hqd : q = dst
          · rw [if_pos hqd]
          · rw [if_neg hqd]; exact hq
  · cases h

lemma castle_inner_board (color : PieceColor) (frm dst : Sq) (x_dir : Int)
    (bs : BoardP) (st st' : Board Bool × BoardP) (x : Int)
    (h : castle_elim_inner color frm dst x_dir bs st x = some st') :
    st'.2 = bs := by
  unfold castle_elim_inner at h
  dsimp only at h
  split at h
  · split at h
    · cases h
    · split at h
      · cases h
      · cases h; rfl
  · cases h

lemma castle_dir_clears (color : PieceColor) (frm : Sq) (bs : BoardP)
    (st st' : Board Bool × BoardP) (x_dir : Int)
    (h : castle_elim_dir color frm bs st x_dir = some st') (q : Sq)
    (hq : getCell st.1 q = false) : getCell st'.1 q = false := by
  unfold castle_elim_dir at h
  dsimp only at h
  split at h
  · split at h
    · cases h; exact hq
    · exact optFold_pres (fun s => getCell s.1 q = false) _
        (fun s a s' hs hP =>
          castle_inner_clears color frm _ x_dir bs s s' a hs q hP)
        _ st st' hq h
  · cases h; exact hq

lemma castle_dir_board (color : PieceColor) (frm : Sq) (bs : BoardP)
    (st st' : Board Bool × BoardP) (x_dir : Int)
    (h : castle_elim_dir color frm bs st x_dir = some st') (hb : st.2 = bs) :
    st'.2 = bs := by
  unfold castle_elim_dir at h
  dsimp only at h
  split at h
  · split at h
    · cases h; exact hb
    · exact optFold_pres (fun s => s.2 = bs) _
        (fun s a s' hs _ =>
          castle_inner_board color frm _ x_dir bs s s' a hs)
        _ st st' hb h
  · cases h; exact hb

lemma castle_elim_facts (color : PieceColor) (board : BoardP) (frm : Sq)
    (moves : Board Bool) (bs : BoardP) (hb : board = bs)
    (m' : Board Bool) (b' : BoardP)
    (h : eliminate_castling_illegal_moves color board frm moves bs
      = some (m', b')) :
    b' = bs ∧ ∀ q, getCell m' q = true → getCell moves q = true := by
  unfold eliminate_castling_illegal_moves at h
  split at h
  · cases h
  · split at h
    · cases h; exact ⟨hb, fun q hq => hq⟩
    · constructor
      · exact optFold_pres (fun s => s.2 = bs) _
          (fun s a s' hs hP => castle_dir_board color frm bs s s' a hs hP)
          _ (moves, board) (m', b') hb h
      · intro q hq
        exact optFold_moves_mono _
          (fun s a s' q' hs hq' => castle_dir_clears color frm bs s s' a hs q' hq')
          _ (moves, board) (m', b') h q hq

lemma eliminate_sound (color : PieceColor) (b : BoardP) (m0 : Board Bool)
    (frm : Sq) (m' : Board Bool) (b' : BoardP)
    (h : eliminate_illegal_moves color b m0 frm = some (m', b')) :
    b' = b ∧ ∀ tgt, getCell m' tgt = true →
      Option.bind (move_piece b frm tgt) (is_in_check color) = some false := by
  unfold eliminate_illegal_moves at h
  dsimp only at h
  split at h
  · cases h
  · rename_i moves1 board1 hmain
    have hb1 : board1 = b :=
      elim_fold_board color frm b allSquares (m0, b) (moves1, board1) hmain rfl
    have hfacts := castle_elim_facts color board1 frm moves1 b hb1 m' b' h
    refine ⟨hfacts.1, fun tgt htrue => ?_⟩
    exact elim_fold_sound color frm b allSquares (m0, b) (moves1, board1) rfl
      hmain tgt (mem_allSquares tgt) (hfacts.2 tgt htrue)

lemma compute_each_facts (color : PieceColor) (b : BoardP)
    (r : Board (Board Bool) × BoardP)
    (h : compute_each_legal_moves color b = some r) :
    r.2 = b ∧ ∀ f t, getCell (getCell r.1 f) t = true →
      Option.bind (move_piece b f t) (is_in_check color) = some false := by
  unfold compute_each_legal_moves at h
  refine optFold_pres
    (fun st => st.2 = b ∧ ∀ f t, getCell (getCell st.1 f) t = true →
      Option.bind (move_piece b f t) (is_in_check color) = some false)
    _ ?_ allSquares (empty_table, b) r ⟨rfl, ?_⟩ h
  · intro s a s' hs hP
    split at hs
    · cases hs; exact hP
    · split at hs
      · cases hs
      · rename_i pseudo hpseudo
        split at hs
        · cases hs
        · rename_i moves2 board2 helim
          cases hs
          have hfacts := eliminate_sound color s.2 pseudo a moves2 board2 helim
          refine ⟨by rw [hfacts.1, hP.1], ?_⟩
          intro f t ht
          rw [getCell_setCell] at ht
          by_cases hf : f = a
          · rw [if_pos hf] at ht
            have hsound := hfacts.2 t ht
            rw [hP.1] at hsound
            rw [hf]
            exact hsound
          · rw [if_neg hf] at ht
            exact hP.2 f t ht
  · intro f t ht
    simp [empty_table, empty_moves, getCell] at ht

/-! ### Claim theorems -/

/-- C1: for every position on which the per-turn legal-move computation
(`compute_each_legal_moves`, i.e. pseudo-legal generation followed by
`eliminate_illegal_moves`) succeeds — in particular every reachable
position — a surviving (source, destination) entry of the resulting table
never leaves the mover's own king attacked: executing the move with
`move_piece` yields a board on which `is_in_check` of the mover's color
returns `false`. -/
theorem C1_no_self_check (c : PieceColor) (b : BoardP) (f t : Sq)
    (h : (compute_each_legal_moves c b).map
      (fun r => getCell (getCell r.1 f) t) = some true) :
    Option.bind (move_piece b f t) (is_in_check c) = some false := by
  rcases Option.map_eq_some'.mp h with ⟨r, hr, hval⟩
  exact (compute_each_facts c b r hr).2 f t hval

theorem C1_no_self_check_witness :
    (compute_each_legal_moves PieceColor.White b0).map
      (fun r => getCell (getCell r.1 (4, 7)) (4, 6)) = some true ∧
    Option.bind (move_piece b0 (4, 7) (4, 6)) (is_in_check PieceColor.White)
      = some false :=
  ⟨by decide, C1_no_self_check PieceColor.White b0 (4, 7) (4, 6) (by decide)⟩

/-- C7: computing the legal-move table for a turn — including every
simulate-and-restore of `eliminate_illegal_moves` and the single-step
castling traversals of `eliminate_castling_illegal_moves` — returns the
board in exactly the state it started in: every square and every piece
field (`has_moved` and `en_passant` included, since whole `Piece` values
are compared). -/
theorem C7_board_restored (c : PieceColor) (b : BoardP)
    (h : (compute_each_legal_moves c b).isSome = true) :
    (compute_each_legal_moves c b).map (fun r => r.2) = some b := by
  rcases Option.isSome_iff_exists.mp h with ⟨r, hr⟩
  rw [hr, Option.map_some']
  exact congrArg some (compute_each_facts c b r hr).1

theorem C7_board_restored_witness :
    (compute_each_legal_moves PieceColor.White b0).isSome = true ∧
    (compute_each_legal_moves PieceColor.White b0).map (fun r => r.2)
      = some b0 :=
  ⟨by decide, C7_board_restored PieceColor.White b0 (by decide)⟩

/-- C2: after `compute_moves` has rebuilt the legal-move table for the side
to move, if no piece of that side has any legal destination (`any_true` of
the movable mask is `false`) the turn state becomes `Checkmate` when it
already was `Check` and `Stalemate` otherwise; if some legal destination
exists the state is left unchanged, hence still `Check` or `Normal`. -/
theorem C2_terminal_states (c : PieceColor) (b : BoardP) (st : TurnState)
    (mv : Bool) (st2 : TurnState)
    (hst : st = TurnState.Normal ∨ st = TurnState.Check)
    (h : (compute_moves c b st).map (fun r => (any_true r.2.1, r.2.2))
      = some (mv, st2)) :
    (mv = false → st2 = (if st = TurnState.Check then TurnState.Checkmate
      else TurnState.Stalemate)) ∧
    (mv = true → st2 = st ∧ (st2 = TurnState.Normal ∨ st2 = TurnState.Check)) := by
  unfold compute_moves at h
  split at h
  · cases h
  · rename_i legal board2 hc
    dsimp only at h
    rw [Option.map_some'] at h
    have h' := Option.some.inj h
    have hmv : any_true (compute_is_movable legal) = mv := congrArg Prod.fst h'
    have hrest := congrArg Prod.snd h'
    dsimp only at hmv hrest
    constructor
    · intro hfalse
      rw [← hrest, if_pos (hmv.trans hfalse)]
    · intro htrue
      have hneg : ¬(any_true (compute_is_movable legal) = false) := by
        rw [hmv, htrue]; simp
      rw [← hrest, if_neg hneg]
      exact ⟨rfl, hst⟩

theorem C2_terminal_states_witness :
    (compute_moves PieceColor.White b0 TurnState.Normal).map
      (fun r => (any_true r.2.1, r.2.2)) = some (true, TurnState.Normal) ∧
    (TurnState.Normal = TurnState.Normal ∧
      (TurnState.Normal = TurnState.Normal ∨ TurnState.Normal = TurnState.Check)) :=
  ⟨by decide,
    (C2_terminal_states PieceColor.White b0 TurnState.Normal true
      TurnState.Normal (Or.inl rfl) (by decide)).2 rfl⟩

lemma toSq_val1 (p : Int × Int) (h : is_position_in_bound p) :
    (((toSq p h).1.val : Nat) : Int) = p.1 := by
  show ((p.1.toNat : Nat) : Int) = p.1
  exact Int.toNat_of_nonneg h.1

lemma castle_inner_keeps (color : PieceColor) (frm dst : Sq) (x_dir : Int)
    (bs : BoardP) (st st' : Board Bool × BoardP) (x : Int) (q : Sq)
    (h : castle_elim_inner color frm dst x_dir bs st x = some st')
    (hqd : q ≠ dst) : getCell st'.1 q = getCell st.1 q := by
  unfold castle_elim_inner at h
  dsimp only at h
  split at h
  · split at h
    · cases h
    · split at h
      · cases h
      · cases h
        rename_i chk _
        cases chk
        · rfl
        · exact getCell_setCell_ne _ _ _ _ hqd
  · cases h

lemma castle_dir_preserves (color : PieceColor) (frm : Sq) (bs : BoardP)
    (st st' : Board Bool × BoardP) (x_dir : Int) (q : Sq)
    (h : castle_elim_dir color frm bs st x_dir = some st')
    (hq : ((q.1.val : Nat) : Int) ≠ (frm.1.val : Int) + x_dir * 2) :
    getCell st'.1 q = getCell st.1 q := by
  unfold castle_elim_dir at h
  dsimp only at h
  split at h
  · rename_i hin
    split at h
    · cases h; rfl
    · have hqd : q ≠ toSq ((frm.1.val : Int) + x_dir * 2, (frm.2.val : Int)) hin := by
        intro hqe
        apply hq
        rw [hqe, toSq_val1]
      exact optFold_pres (fun s => getCell s.1 q = getCell st.1 q) _
        (fun s a s' hs hP => by
          show getCell s'.1 q = getCell st.1 q
          rw [castle_inner_keeps color frm _ x_dir bs s s' a q hs hqd]
          exact hP)
        _ st st' rfl h
  · cases h; rfl

lemma castle_dir_self (color : PieceColor) (frm : Sq) (bs : BoardP)
    (st st' : Board Bool × BoardP) (x_dir : Int) (dst t1 : Sq)
    (hb : st.2 = bs)
    (h : castle_elim_dir color frm bs st x_dir = some st')
    (hdst1 : ((dst.1.val : Nat) : Int) = (frm.1.val : Int) + x_dir * 2)
    (hdst2 : dst.2 = frm.2)
    (ht11 : ((t1.1.val : Nat) : Int) = (frm.1.val : Int) + x_dir)
    (ht12 : t1.2 = frm.2)
    (htrue : getCell st'.1 dst = true) :
    Option.bind (move_piece bs frm frm) (is_in_check color) = some false ∧
    Option.bind (move_piece bs frm t1) (is_in_check color) = some false := by
  unfold castle_elim_dir at h
  dsimp only at h
  split at h
  case isFalse hnin =>
    refine absurd (in_bound_of_fin _ frm.2 ?_ ?_) hnin
    · rw [← hdst1]; exact Int.natCast_nonneg _
    · rw [← hdst1]; exact_mod_cast dst.1.isLt
  case isTrue hin =>
    have hdsteq : toSq ((frm.1.val : Int) + x_dir * 2, (frm.2.val : Int)) hin
        = dst :=
      toSq_eq_of_val _ hin dst hdst1.symm (by rw [hdst2])
    rw [hdsteq] at h
    split at h
    case isTrue h0 =>
      cases h
      rw [htrue] at h0
      cases h0
    case isFalse h0 =>
      rw [optFold_cons] at h
      cases hg0 : castle_elim_inner color frm dst x_dir bs st 0 with
      | none => rw [hg0] at h; cases h
      | some s1 =>
        rw [hg0] at h
        simp only [Option.some_bind] at h
        rw [optFold_cons] at h
        cases hg1 : castle_elim_inner color frm dst x_dir bs s1 1 with
        | none => rw [hg1] at h; cases h
        | some s2 =>
          rw [hg1] at h
          simp only [Option.some_bind, optFold] at h
          cases h
          unfold castle_elim_inner at hg0
          dsimp only at hg0
          split at hg0
          case isFalse hnin0 =>
            refine absurd (in_bound_of_fin _ frm.2 ?_ ?_) hnin0
            · rw [mul_zero, add_zero]; exact Int.natCast_nonneg _
            · rw [mul_zero, add_zero]; exact_mod_cast frm.1.isLt
          case isTrue hbin0 =>
            have hteq0 : toSq ((frm.1.val : Int) + x_dir * 0, (frm.2.val : Int))
                hbin0 = frm :=
              toSq_eq_of_val _ hbin0 frm (by rw [mul_zero, add_zero]) rfl
            rw [hteq0] at hg0
            split at hg0
            · cases hg0
            · rename_i bd0 hm0
              split at hg0
              · cases hg0
              · rename_i chk0 hc0
                cases chk0
                · -- the king is not in check on its start square
                  cases hg0
                  have hstart : Option.bind (move_piece bs frm frm)
                      (is_in_check color) = some false := by
                    rw [hb] at hm0
                    rw [hm0]
                    simpa using hc0
                  refine ⟨hstart, ?_⟩
                  -- second step of the traversal on the restored board
                  unfold castle_elim_inner at hg1
                  dsimp only at hg1
                  split at hg1
                  case isFalse hnin1 =>
                    refine absurd (in_bound_of_fin _ frm.2 ?_ ?_) hnin1
                    · rw [mul_one, ← ht11]; exact Int.natCast_nonneg _
                    · rw [mul_one, ← ht11]; exact_mod_cast t1.1.isLt
                  case isTrue hbin1 =>
                    have hteq1 : toSq ((frm.1.val : Int) + x_dir * 1,
                        (frm.2.val : Int)) hbin1 = t1 :=
                      toSq_eq_of_val _ hbin1 t1 (by rw [mul_one, ht11])
                        (by rw [ht12])
                    rw [hteq1] at hg1
                    split at hg1
                    · cases hg1
                    · rename_i bd1 hm1
                      split at hg1
                      · cases hg1
                      · rename_i chk1 hc1
                        cases chk1
                        · rw [hm1]
                          simpa using hc1
                        · -- the flag was cleared: contradiction with survival
                          cases hg1
                          have h2 : getCell (setCell
                              (if false = true then setCell st.1 dst false
                                else st.1) dst false) dst = true := htrue
                          rw [getCell_setCell_self] at h2
                          cases h2
                · -- the king was in check on its start: the flag is cleared
                  cases hg0
                  have hs1 : getCell (setCell st.1 dst false) dst = false :=
                    getCell_setCell_self _ _ _
                  have hs2 : getCell st'.1 dst = false :=
                    castle_inner_clears color frm dst x_dir bs _ st' 1 hg1 dst hs1
                  rw [hs2] at htrue
                  cases htrue

/-- C3: a castling candidate — a two-file horizontal king move — survives
`eliminate_illegal_moves` only if `is_in_check` answers `false` after each
simulated step of the king's single-step traversal (its own square and the
transit square, replayed by `eliminate_castling_illegal_moves`) and after the
ordinary simulation of the candidate itself (the destination, checked by the
main candidate loop). -/
theorem C3_castling_check_filter (color : PieceColor) (b : BoardP)
    (m0 : Board Bool) (frm : Sq) (x_dir : Int) (dst t1 : Sq)
    (hx : x_dir = -1 ∨ x_dir = 1)
    (hking : is_some_and (getCell b frm)
      (fun pc => decide (pc.piece_type = PieceType.King)) = true)
    (hdst1 : ((dst.1.val : Nat) : Int) = (frm.1.val : Int) + x_dir * 2)
    (hdst2 : dst.2 = frm.2)
    (ht11 : ((t1.1.val : Nat) : Int) = (frm.1.val : Int) + x_dir)
    (ht12 : t1.2 = frm.2)
    (h : (eliminate_illegal_moves color b m0 frm).map
      (fun r => getCell r.1 dst) = some true) :
    Option.bind (move_piece b frm frm) (is_in_check color) = some false ∧
    Option.bind (move_piece b frm t1) (is_in_check color) = some false ∧
    Option.bind (move_piece b frm dst) (is_in_check color) = some false := by
  rcases Option.map_eq_some'.mp h with ⟨⟨m', b'⟩, helim, hdstval⟩
  have hthird := (eliminate_sound color b m0 frm m' b' helim).2 dst hdstval
  unfold eliminate_illegal_moves at helim
  dsimp only at helim
  split at helim
  · cases helim
  · rename_i m1 b1 hmain
    have hb1 : b1 = b :=
      elim_fold_board color frm b allSquares (m0, b) (m1, b1) hmain rfl
    unfold eliminate_castling_illegal_moves at helim
    split at helim
    case h_1 hpc =>
      rw [hb1] at hpc
      rw [hpc] at hking
      cases hking
    case h_2 piece hpc =>
      split at helim
      case isTrue hne =>
        rw [hb1] at hpc
        rw [hpc] at hking
        simp only [is_some_and, decide_eq_true_eq] at hking
        exact absurd hking hne
      case isFalse hne =>
        rw [optFold_cons] at helim
        cases hd1 : castle_elim_dir color frm b (m1, b1) (-1) with
        | none => rw [hd1] at helim; cases helim
        | some stA =>
          rw [hd1] at helim
          simp only [Option.some_bind] at helim
          rw [optFold_cons] at helim
          cases hd2 : castle_elim_dir color frm b stA 1 with
          | none => rw [hd2] at helim; cases helim
          | some stB =>
            rw [hd2] at helim
            simp only [Option.some_bind, optFold] at helim
            cases helim
            have hbA : stA.2 = b :=
              castle_dir_board color frm b (m1, b1) stA (-1) hd1 hb1
            rcases hx with hxm | hxp
            · subst hxm
              have hAdst : getCell stA.1 dst = true := by
                rw [← castle_dir_preserves color frm b stA (m', b') 1 dst hd2
                  (by rw [hdst1]; omega)]
                exact hdstval
              have hself := castle_dir_self color frm b (m1, b1) stA (-1)
                dst t1 hb1 hd1 hdst1 hdst2 ht11 ht12 hAdst
              exact ⟨hself.1, hself.2, hthird⟩
            · subst hxp
              have hself := castle_dir_self color frm b stA (m', b') 1
                dst t1 hbA hd2 hdst1 hdst2 ht11 ht12 hdstval
              exact ⟨hself.1, hself.2, hthird⟩

theorem C3_castling_check_filter_witness :
    (eliminate_illegal_moves PieceColor.White bC3
      (setCell empty_moves (6, 7) true) ((4 : Fin 8), (7 : Fin 8))).map
      (fun r => getCell r.1 (6, 7)) = some true ∧
    (Option.bind (move_piece bC3 (4, 7) (4, 7)) (is_in_check PieceColor.White)
        = some false ∧
      Option.bind (move_piece bC3 (4, 7) (5, 7)) (is_in_check PieceColor.White)
        = some false ∧
      Option.bind (move_piece bC3 (4, 7) (6, 7)) (is_in_check PieceColor.White)
        = some false) :=
  ⟨by decide,
    C3_castling_check_filter PieceColor.White bC3
      (setCell empty_moves (6, 7) true) ((4 : Fin 8), (7 : Fin 8)) 1
      ((6 : Fin 8), (7 : Fin 8)) ((5 : Fin 8), (7 : Fin 8))
      (Or.inr rfl) (by decide) (by decide) (by decide) (by decide) (by decide)
      (by decide)⟩

/-! ### Lemmas about `post_move_update` -/

lemma clear_flag_enemy_pawn (c : PieceColor) (p0 : Piece) :
    ∀ ep, (clear_enemy_pawn_flag c p0).color = c.get_enemy_color →
      (clear_enemy_pawn_flag c p0).piece_type = PieceType.Pawn ep →
      ep = false := by
  unfold clear_enemy_pawn_flag
  cases hpt : p0.piece_type <;> dsimp only
  case Pawn ep0 =>
    by_cases hcc : p0.color = c.get_enemy_color
    · rw [if_pos hcc]
      intro ep _ hty
      injection hty with h
      exact h.symm
    · rw [if_neg hcc]
      intro ep hcol _
      exact absurd hcol hcc
  all_goals
    intro ep hcol hty
    rw [hpt] at hty
    cases hty

lemma clear_flag_keep (c : PieceColor) (p0 : Piece)
    (h : ¬ p0.color = c.get_enemy_color) : clear_enemy_pawn_flag c p0 = p0 := by
  unfold clear_enemy_pawn_flag
  cases hpt : p0.piece_type <;> dsimp only
  case Pawn ep0 => rw [if_neg h]

/-- The property that C8 asserts of a cell: any enemy pawn standing there
has its `en_passant` flag cleared. -/
def flag_cleared_at (c : PieceColor) (stb : BoardP) (q : Sq) : Prop :=
  ∀ p, getCell stb q = some p → p.color = c.get_enemy_color →
    ∀ ep, p.piece_type = PieceType.Pawn ep → ep = false

lemma pmu_step_get_other (c : PieceColor) (st : BoardP × TurnState × Bool)
    (sq q : Sq) (hne : q ≠ sq) :
    getCell (post_move_update_step c st sq).1 q = getCell st.1 q := by
  unfold post_move_update_step
  split
  · rfl
  · dsimp only
    split <;> split <;> exact getCell_setCell_ne _ _ _ _ hne

lemma pmu_step_establish (c : PieceColor) (st : BoardP × TurnState × Bool)
    (sq : Sq) : flag_cleared_at c (post_move_update_step c st sq).1 sq := by
  unfold post_move_update_step
  split
  · rename_i hcell
    intro p hp
    rw [hcell] at hp
    cases hp
  · rename_i piece0 hcell
    dsimp only
    split <;> split <;>
      (intro p hp hcol ep hty
       rw [getCell_setCell_self] at hp
       injection hp with hp
       subst hp
       exact clear_flag_enemy_pawn c piece0 ep hcol hty)

lemma pmu_step_pres (c : PieceColor) (st : BoardP × TurnState × Bool)
    (sq q : Sq) (hA : flag_cleared_at c st.1 q) :
    flag_cleared_at c (post_move_update_step c st sq).1 q := by
  by_cases hqs : q = sq
  · subst hqs; exact pmu_step_establish c st q
  · intro p hp
    rw [pmu_step_get_other c st sq q hqs] at hp
    exact hA p hp

lemma pmu_fold_pres (c : PieceColor) :
    ∀ (l : List Sq) (st : BoardP × TurnState × Bool) (q : Sq),
    flag_cleared_at c st.1 q →
    flag_cleared_at c (l.foldl (post_move_update_step c) st).1 q := by
  intro l
  induction l with
  | nil => intro st q h; exact h
  | cons a l ih =>
    intro st q h
    exact ih (post_move_update_step c st a) q (pmu_step_pres c st a q h)

lemma pmu_fold_establish (c : PieceColor) :
    ∀ (l : List Sq) (st : BoardP × TurnState × Bool) (q : Sq), q ∈ l →
    flag_cleared_at c (l.foldl (post_move_update_step c) st).1 q := by
  intro l
  induction l with
  | nil => intro st q hq; cases hq
  | cons a l ih =>
    intro st q hq
    rcases List.mem_cons.mp hq with heq | hmem
    · subst heq
      exact pmu_fold_pres c l (post_move_update_step c st q) q
        (pmu_step_establish c st q)
    · exact ih (post_move_update_step c st a) q hmem

lemma pmu_step_keep (c : PieceColor) (b : BoardP)
    (st : BoardP × TurnState × Bool) (sq q : Sq)
    (hq : ∀ p0, getCell b q = some p0 → ¬ p0.color = c.get_enemy_color)
    (hP : getCell st.1 q = getCell b q) :
    getCell (post_move_update_step c st sq).1 q = getCell b q := by
  by_cases hqs : q = sq
  · subst hqs
    unfold post_move_update_step
    split
    · exact hP
    · rename_i piece0 hcell
      dsimp only
      have hp0 : getCell b q = some piece0 := by rw [← hP, hcell]
      have hkeep : clear_enemy_pawn_flag c piece0 = piece0 :=
        clear_flag_keep c piece0 (hq piece0 hp0)
      split <;> split <;>
        (rw [getCell_setCell_self, hkeep, hp0])
  · rw [pmu_step_get_other c st sq q hqs]
    exact hP

lemma pmu_fold_keep (c : PieceColor) (b : BoardP)
    (q : Sq) (hq : ∀ p0, getCell b q = some p0 → ¬ p0.color = c.get_enemy_color) :
    ∀ (l : List Sq) (st : BoardP × TurnState × Bool),
    getCell st.1 q = getCell b q →
    getCell (l.foldl (post_move_update_step c) st).1 q = getCell b q := by
  intro l
  induction l with
  | nil => intro st h; exact h
  | cons a l ih =>
    intro st h
    exact ih (post_move_update_step c st a) (pmu_step_keep c b st a q hq h)

/-- C8: after `post_move_update` runs for the side `c` that just completed a
move, every pawn of the opposite color on the resulting board has its
`en_passant` flag equal to `false`; and every square whose original occupant
is not of that opposite color (in particular the mover's own pawn whose flag
a two-square advance just set) is left exactly as it was — so the flag set
by a double step survives its own side's update and is cleared by the very
next one. -/
theorem C8_en_passant_cleared (c : PieceColor) (b : BoardP) (st : TurnState) :
    (∀ sq p, getCell (post_move_update c b st).1 sq = some p →
      p.color = c.get_enemy_color →
      ∀ ep, p.piece_type = PieceType.Pawn ep → ep = false) ∧
    (∀ sq, (∀ p0, getCell b sq = some p0 → ¬ p0.color = c.get_enemy_color) →
      getCell (post_move_update c b st).1 sq = getCell b sq) := by
  constructor
  · intro sq
    exact pmu_fold_establish c allSquares (b, st, false) sq (mem_allSquares sq)
  · intro sq hq
    exact pmu_fold_keep c b sq hq allSquares (b, st, false) rfl

theorem C8_en_passant_cleared_witness :
    (∀ ep, (Piece.mk (PieceType.Pawn false) PieceColor.Black true).piece_type
      = PieceType.Pawn ep → ep = false) ∧
    getCell (post_move_update PieceColor.White bC8 TurnState.Normal).1 (4, 4)
      = getCell bC8 (4, 4) :=
  ⟨fun ep hty =>
    (C8_en_passant_cleared PieceColor.White bC8 TurnState.Normal).1
      (3, 4) (Piece.mk (PieceType.Pawn false) PieceColor.Black true)
      (by decide) (by decide) ep hty,
   (C8_en_passant_cleared PieceColor.White bC8 TurnState.Normal).2 (4, 4)
      (fun p0 hp0 => by
        have he : getCell bC8 (4, 4)
            = some (Piece.mk (PieceType.Pawn true) PieceColor.White true) := by
          decide
        rw [he] at hp0
        cases hp0
        decide)⟩

/-- C9: while the promotion sub-state is active the only piece kinds the
engine can apply are Queen, Knight, Rook and Bishop — `choose_promotion`
returns a member of that four-element table or nothing — and
`Piece::promote` panics (`none`) on a non-pawn receiver or a `King` target,
so a King or Pawn choice is never applied. -/
theorem C9_promotion_choices :
    (∀ (is_mouse_pressed : Bool) (cell : Int × Int) (r : PieceType),
      choose_promotion is_mouse_pressed cell = some r →
      r = PieceType.Queen ∨ r = PieceType.Knight ∨ r = PieceType.Rook ∨
        r = PieceType.Bishop) ∧
    (∀ (p : Piece) (k : PieceType),
      p.piece_type.isPawn = false ∨ k = PieceType.King →
      Piece.promote p k = none) := by
  constructor
  · intro pressed cell r h
    unfold choose_promotion at h
    split at h
    · cases h
    · split at h
      · rename_i hin
        injection h with h
        subst h
        have h4 : cell.1.toNat = 0 ∨ cell.1.toNat = 1 ∨ cell.1.toNat = 2 ∨
            cell.1.toNat = 3 := by omega
        rcases h4 with h4 | h4 | h4 | h4 <;> rw [h4] <;> decide
      · cases h
  · intro p k hk
    unfold Piece.promote
    rcases hk with hk | hk
    · rw [if_pos hk]
    · by_cases hp : p.piece_type.isPawn = false
      · rw [if_pos hp]
      · rw [if_neg hp, if_pos hk]

theorem C9_promotion_choices_witness :
    (PieceType.Queen = PieceType.Queen ∨ PieceType.Queen = PieceType.Knight ∨
      PieceType.Queen = PieceType.Rook ∨ PieceType.Queen = PieceType.Bishop) ∧
    Piece.promote (Piece.mk PieceType.Knight PieceColor.White true)
      PieceType.King = none :=
  ⟨C9_promotion_choices.1 true (0, 0) PieceType.Queen (by decide),
   C9_promotion_choices.2 (Piece.mk PieceType.Knight PieceColor.White true)
      PieceType.King (Or.inr rfl)⟩

/-- C10: pseudo-legal generation panics exactly on an unmoved king standing
away from `(4, rank)` — file 4 of rank 7 for White and of rank 0 for Black
in the source's top-down coordinates (the `assert_eq!` of
`get_king_moves`); every other square, every moved king included, generates
without aborting, so `get_moves` is total precisely on boards whose unmoved
kings occupy their standard starting squares. -/
theorem C10_king_assert (b : BoardP) (p : Sq) (m : Board Bool) :
    get_moves b p m = none ↔
    ∃ piece, getCell b p = some piece ∧
      piece.piece_type = PieceType.King ∧ piece.has_moved = false ∧
      p ≠ ((4 : Fin 8),
        if piece.color = PieceColor.White then (7 : Fin 8) else 0) := by
  unfold get_moves
  cases hcell : getCell b p with
  | none => simp
  | some piece =>
    obtain ⟨pt, pcol, pmov⟩ := piece
    cases pt
    case King =>
      unfold get_king_moves
      dsimp only
      by_cases hm : pmov = true
      · rw [if_pos hm]
        constructor
        · intro h; exact Option.noConfusion h
        · rintro ⟨pc, hpc, _, hmoved, _⟩
          injection hpc with he
          subst he
          have h2 : pmov = false := hmoved
          rw [hm] at h2
          cases h2
      · rw [if_neg hm]
        by_cases hpos : p = ((4 : Fin 8),
            if pcol = PieceColor.White then (7 : Fin 8) else 0)
        · rw [if_pos hpos]
          constructor
          · intro h; exact Option.noConfusion h
          · rintro ⟨pc, hpc, _, _, hne⟩
            injection hpc with he
            subst he
            exact absurd hpos hne
        · rw [if_neg hpos]
          constructor
          · intro _
            exact ⟨Piece.mk PieceType.King pcol pmov, rfl, rfl,
              (Bool.not_eq_true pmov) ▸ hm, hpos⟩
          · intro _
            rfl
    all_goals
      constructor
      · intro h
        exact Option.noConfusion h
      · rintro ⟨pc, hpc, hk, _, _⟩
        injection hpc with he
        subst he
        exact PieceType.noConfusion hk

/-! ### Lemmas about `can_castle` and the castling candidates -/

lemma bool_eq_true {x : Bool} (h : ¬ x = false) : x = true := by
  cases hx : x
  · exact absurd hx h
  · rfl

lemma can_castle_loop_succ (b : BoardP) (y : Fin 8) (x_dir : Int)
    (fuel : Nat) (nx0 : Int) :
    can_castle_loop b y x_dir (fuel + 1) nx0 =
      (if h : is_position_in_bound (nx0 + x_dir, (y.val : Int)) then
        if (toSq (nx0 + x_dir, (y.val : Int)) h).1 = (0 : Fin 8) ∨
            (toSq (nx0 + x_dir, (y.val : Int)) h).1 = (7 : Fin 8) then
          is_castlable_rook (getCell b (toSq (nx0 + x_dir, (y.val : Int)) h))
        else if is_empty_on b (toSq (nx0 + x_dir, (y.val : Int)) h) = false then
          false
        else can_castle_loop b y x_dir fuel (nx0 + x_dir)
      else false) := rfl

lemma ccl_advance (b : BoardP) (rank : Fin 8) (x_dir : Int) (fuel : Nat)
    (nx0 : Int) (nxf : Fin 8)
    (hval : nx0 + x_dir = ((nxf.val : Nat) : Int))
    (hnotc : ¬(nxf = (0 : Fin 8) ∨ nxf = (7 : Fin 8)))
    (hne : ¬ is_empty_on b (nxf, rank) = false) :
    can_castle_loop b rank x_dir (fuel + 1) nx0 =
      can_castle_loop b rank x_dir fuel (nx0 + x_dir) := by
  rw [can_castle_loop_succ]
  have hb : is_position_in_bound (nx0 + x_dir, (rank.val : Int)) := by
    rw [hval]
    exact in_bound_of_fin _ rank (Int.natCast_nonneg _)
      (by exact_mod_cast nxf.isLt)
  rw [dif_pos hb, toSq_eq_of_val _ hb (nxf, rank) hval rfl,
    if_neg hnotc, if_neg hne]

lemma ccl_blocked (b : BoardP) (rank : Fin 8) (x_dir : Int) (fuel : Nat)
    (nx0 : Int) (nxf : Fin 8)
    (hval : nx0 + x_dir = ((nxf.val : Nat) : Int))
    (hnotc : ¬(nxf = (0 : Fin 8) ∨ nxf = (7 : Fin 8)))
    (hemp : is_empty_on b (nxf, rank) = false) :
    can_castle_loop b rank x_dir (fuel + 1) nx0 = false := by
  rw [can_castle_loop_succ]
  have hb : is_position_in_bound (nx0 + x_dir, (rank.val : Int)) := by
    rw [hval]
    exact in_bound_of_fin _ rank (Int.natCast_nonneg _)
      (by exact_mod_cast nxf.isLt)
  rw [dif_pos hb, toSq_eq_of_val _ hb (nxf, rank) hval rfl,
    if_neg hnotc, if_pos hemp]

lemma ccl_corner (b : BoardP) (rank : Fin 8) (x_dir : Int) (fuel : Nat)
    (nx0 : Int) (nxf : Fin 8)
    (hval : nx0 + x_dir = ((nxf.val : Nat) : Int))
    (hc : nxf = (0 : Fin 8) ∨ nxf = (7 : Fin 8)) :
    can_castle_loop b rank x_dir (fuel + 1) nx0 =
      is_castlable_rook (getCell b (nxf, rank)) := by
  rw [can_castle_loop_succ]
  have hb : is_position_in_bound (nx0 + x_dir, (rank.val : Int)) := by
    rw [hval]
    exact in_bound_of_fin _ rank (Int.natCast_nonneg _)
      (by exact_mod_cast nxf.isLt)
  rw [dif_pos hb, toSq_eq_of_val _ hb (nxf, rank) hval rfl, if_pos hc]

lemma can_castle_right (b : BoardP) (rank : Fin 8)
    (h : can_castle b ((4 : Fin 8), rank) 1 = true) :
    is_empty_on b ((5 : Fin 8), rank) = true ∧
    is_empty_on b ((6 : Fin 8), rank) = true ∧
    is_castlable_rook (getCell b ((7 : Fin 8), rank)) = true := by
  unfold can_castle at h
  dsimp only at h
  rw [show (((4 : Fin 8).val : Nat) : Int) = 4 from by decide] at h
  by_cases h5 : is_empty_on b ((5 : Fin 8), rank) = false
  · rw [show can_castle_loop b rank 1 8 4 = can_castle_loop b rank 1 (7 + 1) 4
      from rfl, ccl_blocked b rank 1 7 4 5 (by decide) (by decide) h5] at h
    cases h
  · rw [show can_castle_loop b rank 1 8 4 = can_castle_loop b rank 1 (7 + 1) 4
      from rfl, ccl_advance b rank 1 7 4 5 (by decide) (by decide) h5] at h
    by_cases h6 : is_empty_on b ((6 : Fin 8), rank) = false
    · rw [show can_castle_loop b rank 1 7 ((4 : Int) + 1)
        = can_castle_loop b rank 1 (6 + 1) 5 from rfl,
        ccl_blocked b rank 1 6 5 6 (by decide) (by decide) h6] at h
      cases h
    · rw [show can_castle_loop b rank 1 7 ((4 : Int) + 1)
        = can_castle_loop b rank 1 (6 + 1) 5 from rfl,
        ccl_advance b rank 1 6 5 6 (by decide) (by decide) h6] at h
      rw [show can_castle_loop b rank 1 6 ((5 : Int) + 1)
        = can_castle_loop b rank 1 (5 + 1) 6 from rfl,
        ccl_corner b rank 1 5 6 7 (by decide) (Or.inr rfl)] at h
      exact ⟨bool_eq_true h5, bool_eq_true h6, h⟩

lemma can_castle_left (b : BoardP) (rank : Fin 8)
    (h : can_castle b ((4 : Fin 8), rank) (-1) = true) :
    is_empty_on b ((3 : Fin 8), rank) = true ∧
    is_empty_on b ((2 : Fin 8), rank) = true ∧
    is_empty_on b ((1 : Fin 8), rank) = true ∧
    is_castlable_rook (getCell b ((0 : Fin 8), rank)) = true := by
  unfold can_castle at h
  dsimp only at h
  rw [show (((4 : Fin 8).val : Nat) : Int) = 4 from by decide] at h
  by_cases h3 : is_empty_on b ((3 : Fin 8), rank) = false
  · rw [show can_castle_loop b rank (-1) 8 4
      = can_castle_loop b rank (-1) (7 + 1) 4 from rfl,
      ccl_blocked b rank (-1) 7 4 3 (by decide) (by decide) h3] at h
    cases h
  · rw [show can_castle_loop b rank (-1) 8 4
      = can_castle_loop b rank (-1) (7 + 1) 4 from rfl,
      ccl_advance b rank (-1) 7 4 3 (by decide) (by decide) h3] at h
    by_cases h2 : is_empty_on b ((2 : Fin 8), rank) = false
    · rw [show can_castle_loop b rank (-1) 7 ((4 : Int) + -1)
        = can_castle_loop b rank (-1) (6 + 1) 3 from rfl,
        ccl_blocked b rank (-1) 6 3 2 (by decide) (by decide) h2] at h
      cases h
    · rw [show can_castle_loop b rank (-1) 7 ((4 : Int) + -1)
        = can_castle_loop b rank (-1) (6 + 1) 3 from rfl,
        ccl_advance b rank (-1) 6 3 2 (by decide) (by decide) h2] at h
      by_cases h1 : is_empty_on b ((1 : Fin 8), rank) = false
      · rw [show can_castle_loop b rank (-1) 6 ((3 : Int) + -1)
          = can_castle_loop b rank (-1) (5 + 1) 2 from rfl,
          ccl_blocked b rank (-1) 5 2 1 (by decide) (by decide) h1] at h
        cases h
      · rw [show can_castle_loop b rank (-1) 6 ((3 : Int) + -1)
          = can_castle_loop b rank (-1) (5 + 1) 2 from rfl,
          ccl_advance b rank (-1) 5 2 1 (by decide) (by decide) h1] at h
        rw [show can_castle_loop b rank (-1) 5 ((2 : Int) + -1)
          = can_castle_loop b rank (-1) (4 + 1) 1 from rfl,
          ccl_corner b rank (-1) 4 1 0 (by decide) (Or.inl rfl)] at h
        exact ⟨bool_eq_true h3, bool_eq_true h2, bool_eq_true h1, h⟩

lemma king_moves_castle_cells (b : BoardP) (pcol : PieceColor) (rank : Fin 8)
    (m0 m : Board Bool)
    (hcell : getCell b ((4 : Fin 8), rank)
      = some (Piece.mk PieceType.King pcol false))
    (hrank : rank = (if pcol = PieceColor.White then (7 : Fin 8) else 0))
    (h : get_moves b ((4 : Fin 8), rank) m0 = some m) :
    getCell m ((6 : Fin 8), rank) = can_castle b ((4 : Fin 8), rank) 1 ∧
    getCell m ((2 : Fin 8), rank) = can_castle b ((4 : Fin 8), rank) (-1) := by
  unfold get_moves at h
  rw [hcell] at h
  dsimp only at h
  unfold get_king_moves at h
  dsimp only at h
  rw [if_neg (by decide : ¬(false = true)), ← hrank, if_pos rfl] at h
  injection h with h
  have hne62 : ((6 : Fin 8), rank) ≠ ((2 : Fin 8), rank) := by
    intro he
    have h2 : (6 : Fin 8) = (2 : Fin 8) := congrArg Prod.fst he
    exact absurd h2 (by decide)
  constructor
  · rw [← h, getCell_setCell_ne _ _ _ _ hne62, getCell_setCell_self]
  · rw [← h, getCell_setCell_self]

/-- C4 as stated is false: on `bC4` the unmoved white king at `(4, 7)` has
an unmoved BLACK rook on the corner `(7, 7)` with the squares between them
empty, and pseudo-legal generation still emits the kingside castling
candidate `(6, 7)` — the corner piece need not be of the king's color. -/
theorem C4_castling_rook_color_counterexample :
    getCell bC4 ((4 : Fin 8), (7 : Fin 8))
      = some (Piece.mk PieceType.King PieceColor.White false) ∧
    getCell bC4 ((7 : Fin 8), (7 : Fin 8))
      = some (Piece.mk PieceType.Rook PieceColor.Black false) ∧
    is_empty_on bC4 (5, 7) = true ∧ is_empty_on bC4 (6, 7) = true ∧
    (get_moves bC4 ((4 : Fin 8), (7 : Fin 8)) empty_moves).map
      (fun mm => getCell mm (6, 7)) = some true := by decide

/-- C4 amended: for an unmoved king on its home square `(4, rank)`,
pseudo-legal generation emits a two-square castling candidate toward a side
only if every square strictly between the king and that side's corner is
empty and the corner holds an unmoved rook — of either color, the source
checks no color. -/
theorem C4_castling_candidate_amended (b : BoardP) (pcol : PieceColor)
    (rank : Fin 8) (m0 : Board Bool)
    (hcell : getCell b ((4 : Fin 8), rank)
      = some (Piece.mk PieceType.King pcol false))
    (hrank : rank = (if pcol = PieceColor.White then (7 : Fin 8) else 0)) :
    ((get_moves b ((4 : Fin 8), rank) m0).map
        (fun mm => getCell mm ((6 : Fin 8), rank)) = some true →
      is_empty_on b ((5 : Fin 8), rank) = true ∧
      is_empty_on b ((6 : Fin 8), rank) = true ∧
      is_castlable_rook (getCell b ((7 : Fin 8), rank)) = true) ∧
    ((get_moves b ((4 : Fin 8), rank) m0).map
        (fun mm => getCell mm ((2 : Fin 8), rank)) = some true →
      is_empty_on b ((3 : Fin 8), rank) = true ∧
      is_empty_on b ((2 : Fin 8), rank) = true ∧
      is_empty_on b ((1 : Fin 8), rank) = true ∧
      is_castlable_rook (getCell b ((0 : Fin 8), rank)) = true) := by
  constructor
  · intro h
    rcases Option.map_eq_some'.mp h with ⟨m, hm, hval⟩
    rw [(king_moves_castle_cells b pcol rank m0 m hcell hrank hm).1] at hval
    exact can_castle_right b rank hval
  · intro h
    rcases Option.map_eq_some'.mp h with ⟨m, hm, hval⟩
    rw [(king_moves_castle_cells b pcol rank m0 m hcell hrank hm).2] at hval
    exact can_castle_left b rank hval

theorem C4_castling_candidate_amended_witness :
    is_empty_on bC4W ((5 : Fin 8), (7 : Fin 8)) = true ∧
    is_empty_on bC4W ((6 : Fin 8), (7 : Fin 8)) = true ∧
    is_castlable_rook (getCell bC4W ((7 : Fin 8), (7 : Fin 8))) = true :=
  (C4_castling_candidate_amended bC4W PieceColor.White 7 empty_moves
    (by decide) (by decide)).1 (by decide)

/-! ### Lemmas about the pawn generator -/

lemma toSq_fst (p : Int × Int) (h : is_position_in_bound p) (xf : Fin 8)
    (h1 : p.1 = ((xf.val : Nat) : Int)) : (toSq p h).1 = xf :=
  Fin.ext (show p.1.toNat = xf.val by omega)

lemma pawn_forward_other (board : BoardP) (x : Fin 8) (y y_direction : Int) :
    ∀ (steps : List Int) (moves : Board Bool) (q : Sq), q.1 ≠ x →
    getCell (pawn_forward board x y y_direction steps moves) q
      = getCell moves q := by
  intro steps
  induction steps with
  | nil => intro moves q hq; rfl
  | cons s rest ih =>
    intro moves q hq
    unfold pawn_forward
    dsimp only
    split
    · rename_i hin
      split
      · rw [ih (setCell moves (toSq _ hin) true) q hq]
        refine getCell_setCell_ne _ _ _ _ ?_
        intro he
        apply hq
        rw [he, toSq_fst _ hin x rfl]
      · rfl
    · rfl

lemma pawn_attack_step_get (board : BoardP) (enemy_color : PieceColor)
    (x y : Fin 8) (y_direction : Int) (moves : Board Bool) (move_x : Int)
    (d : Sq)
    (h : getCell (pawn_attack_step board enemy_color x y y_direction moves
      move_x) d = true) :
    getCell moves d = true ∨
    (is_color_on board d enemy_color = true ∨
      is_some_and (board d.1 y)
        (fun piece => decide (piece.piece_type = PieceType.Pawn true)) = true) := by
  unfold pawn_attack_step at h
  dsimp only at h
  split at h
  · rename_i hin
    split at h
    · rename_i hcond
      by_cases hd : d = toSq _ hin
      · right
        rw [← hd] at hcond
        rcases Bool.or_eq_true_iff.mp hcond with hc | hc
        · exact Or.inl hc
        · exact Or.inr hc
      · left
        rw [getCell_setCell_ne _ _ _ _ hd] at h
        exact h
    · exact Or.inl h
  · exact Or.inl h

/-- C5 as stated is false: on `bC5` the WHITE pawn at `(0, 3)` gets the
diagonal destination `(1, 2)` added to its pseudo-legal moves although the
adjacent flagged pawn at `(1, 3)` is also WHITE — not an enemy pawn — and
the destination itself is empty: the source checks only "some pawn with the
flag", never the color. -/
theorem C5_en_passant_counterexample :
    getCell bC5 ((0 : Fin 8), (3 : Fin 8))
      = some (Piece.mk (PieceType.Pawn false) PieceColor.White true) ∧
    getCell bC5 ((1 : Fin 8), (3 : Fin 8))
      = some (Piece.mk (PieceType.Pawn true) PieceColor.White true) ∧
    getCell bC5 ((1 : Fin 8), (2 : Fin 8)) = none ∧
    (get_moves bC5 ((0 : Fin 8), (3 : Fin 8)) empty_moves).map
      (fun mm => getCell mm (1, 2)) = some true := by decide

/-- C5 amended: pseudo-legal generation for a pawn adds a destination on an
adjacent file (a diagonal destination) only when that square holds an enemy
piece, or the square on the mover's own rank in the destination's file holds
a pawn — of either color, and regardless of the destination's own
occupancy — whose `en_passant` flag is true. -/
theorem C5_en_passant_amended (b : BoardP) (x y : Fin 8) (piece : Piece)
    (d : Sq)
    (hcell : getCell b (x, y) = some piece)
    (hpawn : piece.piece_type.isPawn = true)
    (hdx : ((d.1.val : Nat) : Int) = ((x.val : Nat) : Int) - 1 ∨
           ((d.1.val : Nat) : Int) = ((x.val : Nat) : Int) + 1)
    (h : (get_moves b (x, y) empty_moves).map (fun mm => getCell mm d)
      = some true) :
    is_color_on b d piece.color.get_enemy_color = true ∨
    is_some_and (b d.1 y)
      (fun q => decide (q.piece_type = PieceType.Pawn true)) = true := by
  rcases Option.map_eq_some'.mp h with ⟨m, hm, hval⟩
  unfold get_moves at hm
  rw [hcell] at hm
  obtain ⟨pt, pcol, pmv⟩ := piece
  cases pt
  case Pawn ep =>
    dsimp only at hm
    injection hm with hm
    subst hm
    unfold get_pawn_moves at hval
    dsimp only at hval
    simp only [List.foldl_cons, List.foldl_nil] at hval
    have hd1 : d.1 ≠ x := by
      intro he
      have hv : d.1.val = x.val := congrArg Fin.val he
      omega
    rcases pawn_attack_step_get _ _ _ _ _ _ _ _ hval with hval1 | hcond
    · rcases pawn_attack_step_get _ _ _ _ _ _ _ _ hval1 with hval2 | hcond
      · exfalso
        rw [pawn_forward_other _ _ _ _ _ _ _ hd1] at hval2
        exact Bool.noConfusion hval2
      · exact hcond
    · exact hcond
  all_goals exact Bool.noConfusion hpawn

theorem C5_en_passant_amended_witness :
    is_color_on bC5 ((1 : Fin 8), (2 : Fin 8)) PieceColor.Black = true ∨
    is_some_and (bC5 (1 : Fin 8) (3 : Fin 8))
      (fun q => decide (q.piece_type = PieceType.Pawn true)) = true :=
  C5_en_passant_amended bC5 0 3
    (Piece.mk (PieceType.Pawn false) PieceColor.White true) (1, 2)
    (by decide) (by decide) (Or.inr (by decide)) (by decide)

/-- C6: the claim is the intended semantics, and the code breaks it.  On
`bC6` the black rook at `(2, 4)` pseudo-legally attacks the white king's
square `(2, 0)` — so the king's square belongs to the union of the enemy's
pseudo-legal destinations — yet `is_in_check White` returns `false`: inside
`get_all_attacks` the unmoved black king's castling handler later executes
`moves[x - 2][y] = can_castle(...)`, and since `can_castle` is false (the
white king blocks `(2, 0)` and the corner is empty), the assignment
overwrites the rook's earlier attack mark on `(2, 0)`. -/
theorem C6_is_in_check_clobber_eval :
    is_some_and (getCell bC6 ((2 : Fin 8), (4 : Fin 8)))
      (fun p => decide (p.color = PieceColor.Black)) = true ∧
    (get_moves bC6 ((2 : Fin 8), (4 : Fin 8)) empty_moves).map
      (fun mm => getCell mm (2, 0)) = some true ∧
    find_king bC6 PieceColor.White = some (2, 0) ∧
    is_in_check PieceColor.White bC6 = some false := by decide

end RChess
